import Mathlib

/-
  Verification of the SmartShell CLI (src/main.py).

  Shallow embedding conventions:
  - Python strings are embedded as `List Char`; a Lean string literal `"s".data`
    denotes the corresponding character list.
  - `str.replace`, `str.strip`, `str.lower` and the `in` substring test are
    embedded as executable functions on `List Char` below, faithful to Python's
    semantics (replace scans left to right over non-overlapping occurrences;
    strip removes leading and trailing whitespace).
  - The SQLite history table is embedded as a list of rows in insertion order
    together with the AUTOINCREMENT counter (`nextId`, modelling
    sqlite_sequence: `DELETE FROM history` does not reset it).
  - The nondeterministic environment (network success of the Groq call, the
    user's confirmation answer, whether the INSERT raises) is passed to the
    pipeline functions as explicit parameters.
-/

/-- Python `str.lower` restricted to the characters that occur here: maps each
character through `Char.toLower`. -/
def pyLower (s : List Char) : List Char := s.map Char.toLower

/-- Whitespace stripped by Python's `str.strip()` (space, tab, newline,
carriage return, vertical tab, form feed). -/
def isPySpace (c : Char) : Bool :=
  c == ' ' || c == '\t' || c == '\n' || c == '\r' || c == Char.ofNat 11 || c == Char.ofNat 12

/-- Left half of `str.strip()`: drop leading whitespace. -/
def lstripPy (s : List Char) : List Char := s.dropWhile isPySpace

/-- Right half of `str.strip()`: drop trailing whitespace. -/
def rstripPy (s : List Char) : List Char := (s.reverse.dropWhile isPySpace).reverse

/-- Python `str.strip()`: drop leading and trailing whitespace. -/
def pyStrip (s : List Char) : List Char := rstripPy (lstripPy s)

/-- Fuel-driven worker for `pyReplace`; the fuel starts at the length of the
string, which bounds the number of recursion steps. -/
def pyReplaceAux (pat rep : List Char) : Nat → List Char → List Char
  | _, [] => []
  | 0, s => s
  | fuel + 1, c :: cs =>
    if pat.isPrefixOf (c :: cs) then
      rep ++ pyReplaceAux pat rep fuel (cs.drop (pat.length - 1))
    else
      c :: pyReplaceAux pat rep fuel cs

/-- Python `s.replace(pat, rep)` for a non-empty pattern: replace every
non-overlapping occurrence of `pat`, scanning left to right. (All patterns
used by main.py are non-empty; an empty pattern leaves the string unchanged
here.) -/
def pyReplace (pat rep s : List Char) : List Char :=
  if pat.isEmpty then s else pyReplaceAux pat rep s.length s

/-- The backtick character, head of every fence / inline-code marker. -/
def backtickChar : Char := Char.ofNat 96

/-- Sanitization in `do` (src/main.py lines 167-168): strip, then remove the
markers "```powershell", "```bash", "```", "`" in that order, then strip
again. -/
def sanitizeGenerate (raw : List Char) : List Char :=
  pyStrip (pyReplace ("`".data) []
    (pyReplace ("```".data) []
      (pyReplace ("```bash".data) []
        (pyReplace ("```powershell".data) []
          (pyStrip raw)))))

/-- Sanitization in `explain` (src/main.py lines 212-214): strip, then remove
the markers "```bash", "```powershell", "```" in that order. No removal of
single backticks and no final strip. -/
def sanitizeExplain (raw : List Char) : List Char :=
  pyReplace ("```".data) []
    (pyReplace ("```powershell".data) []
      (pyReplace ("```bash".data) []
        (pyStrip raw)))

/-- Python's substring test `needle in haystack`: some suffix of the haystack
starts with the needle. -/
def containsSub (needle : List Char) : List Char → Bool
  | [] => needle.isEmpty
  | c :: cs => needle.isPrefixOf (c :: cs) || containsSub needle cs

/-- The fixed denylist of `check_risk` (src/main.py line 148), in source
order. -/
def dangerous_keywords : List (List Char) :=
  [ "rm".data, "del".data, "format".data, "erase".data, "drop".data,
    "truncate".data, "shutdown".data, "reboot".data, "remove-item".data,
    "ri ".data, "rd /s".data ]

/-- `check_risk` (src/main.py lines 147-150): the sublist of the denylist
whose entries occur in `command.lower()` (Python `in` = contiguous
substring). -/
def check_risk (command : List Char) : List (List Char) :=
  dangerous_keywords.filter (fun w => containsSub w (pyLower command))

/-- A denylist entry occurring in a command as a case-insensitive substring:
the lowercased entry is an infix of the lowercased command. -/
def ciOccurs (w command : List Char) : Bool :=
  containsSub (pyLower w) (pyLower command)

/-- A wall-clock instant as Python's `datetime.now()` provides it, to second
granularity. -/
structure PyDateTime where
  year : Nat
  month : Nat
  day : Nat
  hour : Nat
  minute : Nat
  second : Nat
deriving DecidableEq

/-- Two-digit zero padding used by `strftime` for numeric fields. -/
def pad2 (n : Nat) : List Char :=
  if n < 10 then "0".data ++ (toString n).data else (toString n).data

/-- `datetime.now().strftime("%Y-%m-%d %H:%M")` (src/main.py line 124): the
timestamp stored with every history row. Note there is no seconds field. -/
def strftimeYmdHM (t : PyDateTime) : List Char :=
  (toString t.year).data ++ "-".data ++ pad2 t.month ++ "-".data ++ pad2 t.day
    ++ " ".data ++ pad2 t.hour ++ ":".data ++ pad2 t.minute

/-- One row of the `history` table in the current schema
(src/main.py lines 98-110). -/
structure HistoryRow where
  id : Nat
  timestamp : List Char
  cmd_type : List Char
  task : List Char
  command : List Char
  os_info : List Char
deriving DecidableEq

/-- The `history` table: rows in insertion order plus the AUTOINCREMENT
counter (sqlite_sequence), which a DELETE does not reset. -/
structure HistoryDB where
  rows : List HistoryRow
  nextId : Nat
deriving DecidableEq

/-- `HistoryManager.save` (src/main.py lines 121-129): INSERT a row stamped
with `datetime.now().strftime("%Y-%m-%d %H:%M")`, return True; on any
exception return False with the table unchanged. `dbOk` tells whether the
INSERT raises. -/
def save (dbOk : Bool) (now : PyDateTime)
    (cmd_type task command os_info : List Char) (db : HistoryDB) :
    Bool × HistoryDB :=
  if dbOk then
    (true,
      ⟨db.rows ++ [⟨db.nextId, strftimeYmdHM now, cmd_type, task, command, os_info⟩],
        db.nextId + 1⟩)
  else
    (false, db)

/-- The four columns `HistoryManager.get_all` SELECTs
(timestamp, cmd_type, task, command). -/
def projRow (r : HistoryRow) : List Char × List Char × List Char × List Char :=
  (r.timestamp, r.cmd_type, r.task, r.command)

/-- `HistoryManager.get_all` (src/main.py lines 131-133):
`SELECT timestamp, cmd_type, task, command FROM history ORDER BY id DESC
LIMIT ?`. Sorting by id descending is embedded with `List.insertionSort`. -/
def get_all (limit : Nat) (db : HistoryDB) :
    List (List Char × List Char × List Char × List Char) :=
  ((db.rows.insertionSort (fun a b => b.id ≤ a.id)).take limit).map projRow

/-- `HistoryManager.clear_all` (src/main.py lines 135-137):
`DELETE FROM history`; the AUTOINCREMENT counter survives. -/
def clear_all (db : HistoryDB) : HistoryDB := ⟨[], db.nextId⟩

/-- A row of the pre-`cmd_type` schema, as found in databases created by the
older implementation. -/
structure LegacyRow where
  id : Nat
  timestamp : List Char
  task : List Char
  command : List Char
  os_info : List Char
deriving DecidableEq

/-- The `history` table before or after the additive migration. -/
inductive TableState where
  | legacy (rows : List LegacyRow) (nextId : Nat)
  | current (db : HistoryDB)
deriving DecidableEq

/-- The DEFAULT of the column added by `HistoryManager.migrate`
(src/main.py line 115): `ALTER TABLE history ADD COLUMN cmd_type TEXT
DEFAULT 'do'`. -/
def migrate_default : List Char := "do".data

/-- Effect of the ALTER TABLE on one legacy row: it gains the `cmd_type`
column holding the declared default. -/
def migrateRow (r : LegacyRow) : HistoryRow :=
  ⟨r.id, r.timestamp, migrate_default, r.task, r.command, r.os_info⟩

/-- `HistoryManager.migrate` (src/main.py lines 112-119): add the `cmd_type`
column with its default to a legacy table; if the column already exists the
`sqlite3.OperationalError` is swallowed and nothing changes. -/
def migrate : TableState → TableState
  | .legacy rows nextId => .current ⟨rows.map migrateRow, nextId⟩
  | .current db => .current db

/-- `get_system_info` (src/main.py lines 141-145): map the platform string to
(os_name, shell_name, executable). -/
def get_system_info (system : List Char) : List Char × List Char × List Char :=
  if system = "Windows".data then
    ("Windows".data, "PowerShell".data, "powershell".data)
  else
    (system, "Bash".data, "bash".data)

/-- Failure of the Groq chat-completion call (network/auth/quota), caught by
the `except` blocks of `do` and `explain`. -/
structure GatewayError where
  message : List Char
deriving DecidableEq

/-- Observable outcome of one run of `do`: the resulting table state, the
child processes invoked via `subprocess.run [executable, flag, command]`,
the risk warning printed (the matched keywords), and the error reported by
the `except` handler, if any. -/
structure DoOutcome where
  db : HistoryDB
  executed : List (List Char × List Char × List Char)
  risksShown : List (List Char)
  errorReported : Option (List Char)
deriving DecidableEq

/-- The `do` command (src/main.py lines 152-188). `gatewayResult` is the Groq
call's outcome, `confirmAnswer` the user's reply to "Run and log this
command?", `dbOk` whether the INSERT of `save` succeeds. -/
def do_op (system task : List Char) (gatewayResult : Except GatewayError (List Char))
    (confirmAnswer : Bool) (dbOk : Bool) (now : PyDateTime) (db : HistoryDB) :
    DoOutcome :=
  let info := get_system_info system
  let os_name := info.1
  let executable := info.2.2
  match gatewayResult with
  | .error e => ⟨db, [], [], some e.message⟩
  | .ok content =>
    let command := sanitizeGenerate content
    let risks := check_risk command
    if confirmAnswer then
      let saved := save dbOk now ("do".data) task command os_name db
      let flag := if os_name = "Windows".data then "-Command".data else "-c".data
      ⟨saved.2, [(executable, flag, command)], risks, none⟩
    else
      ⟨db, [], risks, none⟩

/-- Observable outcome of one run of `explain`: the resulting table state,
the rendered explanation, and the reported error, if any. -/
structure ExplainOutcome where
  db : HistoryDB
  rendered : Option (List Char)
  errorReported : Option (List Char)
deriving DecidableEq

/-- The `explain` command (src/main.py lines 190-225): sanitize the response,
render it, then unconditionally `save("explain", "Explanation Request",
command, os_name)`. -/
def explain_op (system command : List Char)
    (gatewayResult : Except GatewayError (List Char)) (dbOk : Bool)
    (now : PyDateTime) (db : HistoryDB) : ExplainOutcome :=
  match gatewayResult with
  | .error e => ⟨db, none, some e.message⟩
  | .ok content =>
    let clean_content := sanitizeExplain content
    let os_name := (get_system_info system).1
    let saved := save dbOk now ("explain".data) ("Explanation Request".data) command os_name db
    ⟨saved.2, some clean_content, none⟩

/-- The operations that write the `history` table over the life of the
database. -/
inductive DBOp where
  | saveOp (dbOk : Bool) (now : PyDateTime) (cmd_type task command os_info : List Char)
  | clearOp
deriving DecidableEq

/-- State transition of one table-writing operation. -/
def applyOp : DBOp → HistoryDB → HistoryDB
  | .saveOp dbOk now a b c d, db => (save dbOk now a b c d db).2
  | .clearOp, db => clear_all db

/-- The ids an operation assigns to newly inserted rows. -/
def opAssigned : DBOp → HistoryDB → List Nat
  | .saveOp dbOk _ _ _ _ _, db => if dbOk then [db.nextId] else []
  | .clearOp, _ => []

/-- Run a sequence of table-writing operations. -/
def runOps : List DBOp → HistoryDB → HistoryDB
  | [], db => db
  | op :: ops, db => runOps ops (applyOp op db)

/-- All ids assigned along a run, in order of assignment. -/
def runAssigned : List DBOp → HistoryDB → List Nat
  | [], _ => []
  | op :: ops, db => opAssigned op db ++ runAssigned ops (applyOp op db)

/-! ### Lemmas about the embedded Python string primitives -/

/-- Every keyword of the denylist is already lowercase. -/
theorem pyLower_keywords : ∀ w ∈ dangerous_keywords, pyLower w = w := by decide

/-- A replacement whose pattern starts with a character absent from the
string leaves the string unchanged (worker version). -/
theorem pyReplaceAux_not_mem (p0 : Char) (pr rep : List Char) :
    ∀ (fuel : Nat) (s : List Char), p0 ∉ s → pyReplaceAux (p0 :: pr) rep fuel s = s := by
  intro fuel
  induction fuel with
  | zero => intro s _; cases s <;> rfl
  | succ n ih =>
    intro s hs
    cases s with
    | nil => rfl
    | cons c cs =>
      have hne : p0 ≠ c := fun h => hs (h ▸ List.mem_cons_self c cs)
      have hpre : (p0 :: pr).isPrefixOf (c :: cs) = false := by
        simp [List.isPrefixOf]
        intro h
        exact absurd h hne
      simp only [pyReplaceAux, hpre, Bool.false_eq_true, if_false]
      have : p0 ∉ cs := fun h => hs (List.mem_cons_of_mem c h)
      rw [ih cs this]

/-- A replacement whose pattern starts with a character absent from the
string leaves the string unchanged. -/
theorem pyReplace_not_mem {p0 : Char} {pr rep s : List Char} (h : p0 ∉ s) :
    pyReplace (p0 :: pr) rep s = s := by
  unfold pyReplace
  simp only [List.isEmpty, Bool.false_eq_true, if_false]
  exact pyReplaceAux_not_mem p0 pr rep s.length s h

/-- Replacing single backticks by nothing is exactly filtering them out. -/
theorem pyReplaceAux_tick :
    ∀ (fuel : Nat) (s : List Char), s.length ≤ fuel →
      pyReplaceAux [backtickChar] [] fuel s = s.filter (fun c => !(c == backtickChar)) := by
  intro fuel
  induction fuel with
  | zero =>
    intro s hs
    cases s with
    | nil => rfl
    | cons c cs => simp at hs
  | succ n ih =>
    intro s hs
    cases s with
    | nil => rfl
    | cons c cs =>
      have hlen : cs.length ≤ n := by simpa using hs
      by_cases hc : c = backtickChar
      · subst hc
        have hpre : ([backtickChar].isPrefixOf (backtickChar :: cs)) = true := by
          simp [List.isPrefixOf]
        have hbeq : (backtickChar == backtickChar) = true := beq_self_eq_true _
        simp only [pyReplaceAux, hpre, if_true]
        simp only [List.length_cons, List.length_nil, Nat.zero_add, Nat.sub_self,
          List.drop_zero, List.nil_append]
        rw [ih cs hlen, List.filter_cons_of_neg]
        simp [hbeq]
      · have hbeq : (c == backtickChar) = false := beq_eq_false_iff_ne.mpr hc
        have hpre : ([backtickChar].isPrefixOf (c :: cs)) = false := by
          simp [List.isPrefixOf]
          exact fun h => absurd h.symm hc
        simp only [pyReplaceAux, hpre, Bool.false_eq_true, if_false]
        rw [ih cs hlen, List.filter_cons_of_pos]
        simp [hbeq]

/-- Replacing single backticks by nothing is exactly filtering them out. -/
theorem pyReplace_tick_filter (s : List Char) :
    pyReplace ("`".data) [] s = s.filter (fun c => !(c == backtickChar)) := by
  have hd : "`".data = [backtickChar] := by decide
  rw [hd]
  unfold pyReplace
  simp only [List.isEmpty, Bool.false_eq_true, if_false]
  exact pyReplaceAux_tick s.length s (Nat.le_refl _)

/-- No backtick survives the single-backtick removal. -/
theorem not_tick_mem_replace_tick (s : List Char) :
    backtickChar ∉ pyReplace ("`".data) [] s := by
  rw [pyReplace_tick_filter]
  intro h
  have := List.of_mem_filter h
  simp at this

/-- Left strip only drops characters. -/
theorem lstrip_subset (s : List Char) : lstripPy s ⊆ s := by
  unfold lstripPy
  exact (List.dropWhile_suffix isPySpace).sublist.subset

/-- Right strip only drops characters. -/
theorem rstrip_subset (s : List Char) : rstripPy s ⊆ s := by
  unfold rstripPy
  intro x hx
  rw [List.mem_reverse] at hx
  have := (List.dropWhile_suffix isPySpace).sublist.subset hx
  rwa [List.mem_reverse] at this

/-- Stripping only drops characters. -/
theorem pyStrip_subset (s : List Char) : pyStrip s ⊆ s := by
  unfold pyStrip
  exact fun x hx => lstrip_subset s (rstrip_subset (lstripPy s) hx)

/-- The head of `dropWhile p l`, when present, does not satisfy `p`. -/
theorem dropWhile_head_false (p : Char → Bool) :
    ∀ (l : List Char) (a : Char), (l.dropWhile p).head? = some a → p a = false := by
  intro l
  induction l with
  | nil => intro a h; simp [List.dropWhile] at h
  | cons c cs ih =>
    intro a h
    rw [List.dropWhile_cons] at h
    by_cases hc : p c = true
    · rw [if_pos hc] at h
      exact ih a h
    · rw [if_neg hc] at h
      simp at h
      rw [← h]
      exact Bool.eq_false_iff.mpr hc

/-- Dropping a satisfied prefix twice is the same as dropping it once. -/
theorem lstrip_idem (s : List Char) : lstripPy (lstripPy s) = lstripPy s := by
  unfold lstripPy
  cases h : s.dropWhile isPySpace with
  | nil => simp
  | cons a t =>
    have ha : isPySpace a = false := dropWhile_head_false isPySpace s a (by rw [h]; rfl)
    rw [List.dropWhile_cons, if_neg (by simp [ha])]

/-- Right strip is idempotent. -/
theorem rstrip_idem (s : List Char) : rstripPy (rstripPy s) = rstripPy s := by
  show rstripPy ((s.reverse.dropWhile isPySpace).reverse) = rstripPy s
  unfold rstripPy
  rw [List.reverse_reverse]
  have := lstrip_idem s.reverse
  unfold lstripPy at this
  rw [this]

/-- Right strip removes a suffix: the string is the stripped part followed by
the removed tail. -/
theorem rstrip_decomp (s : List Char) : ∃ t, s = rstripPy s ++ t := by
  have hsuf : s.reverse.dropWhile isPySpace <:+ s.reverse := List.dropWhile_suffix isPySpace
  obtain ⟨w, hw⟩ := hsuf
  refine ⟨w.reverse, ?_⟩
  unfold rstripPy
  rw [← List.reverse_append, hw, List.reverse_reverse]

/-- Right strip after left strip leaves nothing more for left strip to do. -/
theorem lstrip_rstrip_lstrip (s : List Char) :
    lstripPy (rstripPy (lstripPy s)) = rstripPy (lstripPy s) := by
  obtain ⟨t, ht⟩ := rstrip_decomp (lstripPy s)
  cases hr : rstripPy (lstripPy s) with
  | nil => rfl
  | cons a u =>
    have hhead : (lstripPy s).head? = some a := by
      rw [ht, hr]; rfl
    have ha : isPySpace a = false := dropWhile_head_false isPySpace s a hhead
    unfold lstripPy
    rw [List.dropWhile_cons, if_neg (by simp [ha])]

/-- Python's `strip` is idempotent. -/
theorem pyStrip_idem (s : List Char) : pyStrip (pyStrip s) = pyStrip s := by
  show rstripPy (lstripPy (rstripPy (lstripPy s))) = rstripPy (lstripPy s)
  rw [lstrip_rstrip_lstrip, rstrip_idem]

/-- On a backtick-free string each of the four marker removals of the
sanitizers is the identity. -/
theorem replace_markers_fix {s : List Char} (h : backtickChar ∉ s) :
    pyReplace ("```powershell".data) [] s = s ∧
    pyReplace ("```bash".data) [] s = s ∧
    pyReplace ("```".data) [] s = s ∧
    pyReplace ("`".data) [] s = s := by
  refine ⟨?_, ?_, ?_, ?_⟩
  · rw [show ("```powershell".data) = backtickChar :: ("``powershell".data) by decide]
    exact pyReplace_not_mem h
  · rw [show ("```bash".data) = backtickChar :: ("``bash".data) by decide]
    exact pyReplace_not_mem h
  · rw [show ("```".data) = backtickChar :: ("``".data) by decide]
    exact pyReplace_not_mem h
  · rw [show ("`".data) = backtickChar :: ([] : List Char) by decide]
    exact pyReplace_not_mem h

/-- The output of the Generate sanitizer never contains a backtick. -/
theorem no_tick_sanitizeGenerate (raw : List Char) :
    backtickChar ∉ sanitizeGenerate raw := by
  unfold sanitizeGenerate
  intro hmem
  exact not_tick_mem_replace_tick _ (pyStrip_subset _ hmem)

/-! ### Lemmas about the history store -/

/-- Inserting an element related to nothing in the list pushes it to the
end. -/
theorem orderedInsert_eq_append {α : Type} {r : α → α → Prop} [DecidableRel r] (x : α) :
    ∀ l : List α, (∀ y ∈ l, ¬ r x y) → List.orderedInsert r x l = l ++ [x] := by
  intro l
  induction l with
  | nil => intro _; rfl
  | cons b t ih =>
    intro h
    show List.orderedInsert r x (b :: t) = (b :: t) ++ [x]
    rw [List.orderedInsert, if_neg (h b (List.mem_cons_self b t)),
      ih (fun y hy => h y (List.mem_cons_of_mem b hy))]
    rfl

/-- Sorting by id descending a list whose ids strictly increase yields its
reverse. -/
theorem insertionSort_desc_eq_reverse :
    ∀ l : List HistoryRow, List.Pairwise (fun a b => a.id < b.id) l →
      l.insertionSort (fun a b => b.id ≤ a.id) = l.reverse := by
  intro l
  induction l with
  | nil => intro _; rfl
  | cons x xs ih =>
    intro h
    rw [List.pairwise_cons] at h
    rw [List.insertionSort, ih h.2, orderedInsert_eq_append]
    · rw [List.reverse_cons]
    · intro y hy
      rw [List.mem_reverse] at hy
      exact Nat.not_le.mpr (h.1 y hy)

/-- Each operation only moves the AUTOINCREMENT counter forward. -/
theorem applyOp_nextId_mono (op : DBOp) (db : HistoryDB) :
    db.nextId ≤ (applyOp op db).nextId := by
  cases op with
  | saveOp dbOk now a b c d =>
    cases dbOk
    · exact Nat.le_refl _
    · exact Nat.le_succ _
  | clearOp => exact Nat.le_refl _

/-- Running operations only moves the AUTOINCREMENT counter forward. -/
theorem runOps_nextId_mono :
    ∀ (ops : List DBOp) (db : HistoryDB), db.nextId ≤ (runOps ops db).nextId := by
  intro ops
  induction ops with
  | nil => intro db; exact Nat.le_refl _
  | cons op t ih =>
    intro db
    exact Nat.le_trans (applyOp_nextId_mono op db) (ih (applyOp op db))

/-- Every id assigned along a run is at least the counter at its start. -/
theorem runAssigned_ge :
    ∀ (ops : List DBOp) (db : HistoryDB) (j : Nat),
      j ∈ runAssigned ops db → db.nextId ≤ j := by
  intro ops
  induction ops with
  | nil => intro db j hj; simp [runAssigned] at hj
  | cons op t ih =>
    intro db j hj
    rcases List.mem_append.mp hj with h | h
    · cases op with
      | saveOp dbOk now a b c d =>
        cases dbOk
        · simp [opAssigned] at h
        · simp [opAssigned] at h
          exact Nat.le_of_eq h.symm
      | clearOp => simp [opAssigned] at h
    · exact Nat.le_trans (applyOp_nextId_mono op db) (ih (applyOp op db) j h)

/-- Every id assigned by one operation is below the counter it leaves. -/
theorem opAssigned_lt (op : DBOp) (db : HistoryDB) (i : Nat)
    (h : i ∈ opAssigned op db) : i < (applyOp op db).nextId := by
  cases op with
  | saveOp dbOk now a b c d =>
    cases dbOk
    · simp [opAssigned] at h
    · simp [opAssigned] at h
      subst h
      simp [applyOp, save]
  | clearOp => simp [opAssigned] at h

/-- Every id assigned along a run is below the counter at its end. -/
theorem runAssigned_lt :
    ∀ (ops : List DBOp) (db : HistoryDB) (i : Nat),
      i ∈ runAssigned ops db → i < (runOps ops db).nextId := by
  intro ops
  induction ops with
  | nil => intro db i hi; simp [runAssigned] at hi
  | cons op t ih =>
    intro db i hi
    rcases List.mem_append.mp hi with h | h
    · exact Nat.lt_of_lt_of_le (opAssigned_lt op db i h)
        (runOps_nextId_mono t (applyOp op db))
    · exact ih (applyOp op db) i h

/-- The ids assigned along any run are strictly increasing. -/
theorem runAssigned_pairwise :
    ∀ (ops : List DBOp) (db : HistoryDB),
      List.Pairwise (fun i j => i < j) (runAssigned ops db) := by
  intro ops
  induction ops with
  | nil => intro db; simp [runAssigned]
  | cons op t ih =>
    intro db
    apply List.pairwise_append.mpr
    refine ⟨?_, ih (applyOp op db), ?_⟩
    · cases op with
      | saveOp dbOk now a b c d => cases dbOk <;> simp [opAssigned]
      | clearOp => simp [opAssigned]
    · intro i hi j hj
      exact Nat.lt_of_lt_of_le (opAssigned_lt op db i hi)
        (runAssigned_ge t (applyOp op db) j hj)

/-- Running an appended program is sequential composition. -/
theorem runOps_append :
    ∀ (l1 l2 : List DBOp) (db : HistoryDB),
      runOps (l1 ++ l2) db = runOps l2 (runOps l1 db) := by
  intro l1
  induction l1 with
  | nil => intro l2 db; rfl
  | cons op t ih => intro l2 db; exact ih l2 (applyOp op db)

/-! ### Claims -/

/-- C2: for every command string, `check_risk` returns exactly the subset of
the fixed denylist whose entries occur as case-insensitive substrings of the
command, preserving denylist order (filter), and the result is non-empty iff
at least one denylist entry occurs as a case-insensitive substring. -/
theorem claim_C2 (command : List Char) :
    check_risk command = dangerous_keywords.filter (fun w => ciOccurs w command) ∧
    (check_risk command ≠ [] ↔ ∃ w ∈ dangerous_keywords, ciOccurs w command = true) := by
  have h1 : check_risk command = dangerous_keywords.filter (fun w => ciOccurs w command) := by
    unfold check_risk
    apply List.filter_congr
    intro w hw
    show containsSub w (pyLower command) = ciOccurs w command
    unfold ciOccurs
    rw [pyLower_keywords w hw]
  refine ⟨h1, ?_⟩
  rw [h1]
  constructor
  · intro hne
    by_contra hno
    push_neg at hno
    apply hne
    rw [List.filter_eq_nil_iff]
    intro a ha
    simp only [Bool.not_eq_true]
    exact Bool.eq_false_iff.mpr (hno a ha)
  · rintro ⟨w, hw, hcw⟩ hnil
    rw [List.filter_eq_nil_iff] at hnil
    exact hnil w hw hcw

/-- C3: if the user declines the confirmation prompt in Generate, the history
store is unchanged and no child process is executed. -/
theorem claim_C3 (system task content : List Char) (dbOk : Bool)
    (now : PyDateTime) (db : HistoryDB) :
    (do_op system task (Except.ok content) false dbOk now db).db = db ∧
    (do_op system task (Except.ok content) false dbOk now db).executed = [] := by
  exact ⟨rfl, rfl⟩

/-- C4: if the completion gateway fails in Generate, the error is reported to
the user and the operation terminates with the history store unchanged and
no child process executed. -/
theorem claim_C4 (system task : List Char) (e : GatewayError)
    (confirmAnswer dbOk : Bool) (now : PyDateTime) (db : HistoryDB) :
    (do_op system task (Except.error e) confirmAnswer dbOk now db).errorReported
      = some e.message ∧
    (do_op system task (Except.error e) confirmAnswer dbOk now db).db = db ∧
    (do_op system task (Except.error e) confirmAnswer dbOk now db).executed = [] := by
  exact ⟨rfl, rfl, rfl⟩

/-- C7: the Generate sanitization (strip markers, trim whitespace) is
idempotent. -/
theorem claim_C7 (raw : List Char) :
    sanitizeGenerate (sanitizeGenerate raw) = sanitizeGenerate raw := by
  have hn : backtickChar ∉ sanitizeGenerate raw := no_tick_sanitizeGenerate raw
  have hys : pyStrip (sanitizeGenerate raw) = sanitizeGenerate raw := by
    show pyStrip (pyStrip (pyReplace ("`".data) []
      (pyReplace ("```".data) []
        (pyReplace ("```bash".data) []
          (pyReplace ("```powershell".data) []
            (pyStrip raw)))))) = sanitizeGenerate raw
    rw [pyStrip_idem]
    rfl
  obtain ⟨hpw, hbash, hfence, htick⟩ := replace_markers_fix hn
  show pyStrip (pyReplace ("`".data) []
    (pyReplace ("```".data) []
      (pyReplace ("```bash".data) []
        (pyReplace ("```powershell".data) []
          (pyStrip (sanitizeGenerate raw)))))) = sanitizeGenerate raw
  rw [hys, hpw, hbash, hfence, htick, hys]

/-- C8: the history append returns success or failure without throwing (a
failed INSERT yields `false` and leaves the store unchanged), and in Generate
a failed append does not prevent execution: exactly one child process is
invoked after confirmation, independently of the append's outcome. -/
theorem claim_C8 (system task content cmd_type task2 command2 os2 : List Char)
    (dbOk : Bool) (now : PyDateTime) (db : HistoryDB) :
    save false now cmd_type task2 command2 os2 db = (false, db) ∧
    (do_op system task (Except.ok content) true dbOk now db).executed
      = (do_op system task (Except.ok content) true true now db).executed ∧
    (do_op system task (Except.ok content) true dbOk now db).executed.length = 1 := by
  exact ⟨rfl, rfl, rfl⟩

/-- C5 fails as stated: the two sanitizers differ on the raw response
string consisting of an inline-code command. The Generate sanitizer removes
the single backticks while the Explain sanitizer keeps them. -/
theorem claim_C5_counterexample :
    sanitizeGenerate ("`ls`".data) = "ls".data ∧
    sanitizeExplain ("`ls`".data) = "`ls`".data ∧
    sanitizeGenerate ("`ls`".data) ≠ sanitizeExplain ("`ls`".data) := by decide

/-- C5 amended: both sanitizers strip the raw response and remove the same
triple-backtick fence markers, but the Explain sanitizer does not remove
single-backtick inline-code delimiters and does not trim afterwards; on every
raw response string containing no backtick the two sanitizers produce the
same output, namely the stripped input. -/
theorem claim_C5_amended (raw : List Char) (h : backtickChar ∉ raw) :
    sanitizeGenerate raw = sanitizeExplain raw ∧
    sanitizeExplain raw = pyStrip raw := by
  have hs : backtickChar ∉ pyStrip raw := fun hm => h (pyStrip_subset raw hm)
  obtain ⟨hpw, hbash, hfence, htick⟩ := replace_markers_fix hs
  have hgen : sanitizeGenerate raw = pyStrip raw := by
    show pyStrip (pyReplace ("`".data) []
      (pyReplace ("```".data) []
        (pyReplace ("```bash".data) []
          (pyReplace ("```powershell".data) []
            (pyStrip raw))))) = pyStrip raw
    rw [hpw, hbash, hfence, htick, pyStrip_idem]
  have hexp : sanitizeExplain raw = pyStrip raw := by
    show pyReplace ("```".data) []
      (pyReplace ("```powershell".data) []
        (pyReplace ("```bash".data) []
          (pyStrip raw))) = pyStrip raw
    rw [hbash, hpw, hfence]
  exact ⟨hgen.trans hexp.symm, hexp⟩

/-- The amended C5, applied to the concrete backtick-free raw response
"ls -la". -/
theorem claim_C5_witness :
    backtickChar ∉ ("ls -la".data) ∧
    (sanitizeGenerate ("ls -la".data) = sanitizeExplain ("ls -la".data) ∧
     sanitizeExplain ("ls -la".data) = pyStrip ("ls -la".data)) :=
  ⟨by decide, claim_C5_amended ("ls -la".data) (by decide)⟩

/-- C1 fails as stated: the record appended by the Generate operation carries
cmd_type "do", not "generate", and the migration's declared default is "do",
not "generate". -/
theorem claim_C1_counterexample :
    ((do_op ("Linux".data) ("list files".data) (Except.ok ("ls".data)) true true
        ⟨2024, 1, 1, 12, 0, 0⟩ ⟨[], 1⟩).db.rows.map (fun r => r.cmd_type)
      = ["do".data]) ∧
    migrate_default = "do".data ∧
    "do".data ≠ "generate".data := by decide

/-- C1 amended: the cmd_type field of a history record takes only the values
"do" or "explain" — every record appended by the Generate operation carries
cmd_type "do", every record appended by the Explain operation carries
cmd_type "explain", and the schema migration adds the cmd_type column with
default value "do" for rows created before the field existed. -/
theorem claim_C1_amended (system task command : List Char)
    (gw gw2 : Except GatewayError (List Char)) (confirmAnswer dbOk : Bool)
    (now : PyDateTime) (db : HistoryDB) (r : LegacyRow) :
    (((do_op system task gw confirmAnswer dbOk now db).db.rows.drop db.rows.length).all
        (fun row => row.cmd_type == "do".data)) = true ∧
    (((explain_op system command gw2 dbOk now db).db.rows.drop db.rows.length).all
        (fun row => row.cmd_type == "explain".data)) = true ∧
    (migrateRow r).cmd_type = migrate_default ∧
    migrate_default = "do".data := by
  refine ⟨?_, ?_, rfl, rfl⟩
  · cases gw with
    | error e => simp [do_op, List.drop_length]
    | ok content =>
      cases confirmAnswer
      · simp [do_op, List.drop_length]
      · cases dbOk
        · simp [do_op, save, List.drop_length]
        · simp [do_op, save, List.drop_left]
  · cases gw2 with
    | error e => simp [explain_op, List.drop_length]
    | ok content =>
      cases dbOk
      · simp [explain_op, save, List.drop_length]
      · simp [explain_op, save, List.drop_left]

/-- C6 fails as stated: the timestamp stored at insertion has only minute
precision — two insertions whose wall-clock times differ only in the seconds
component store the same timestamp string. -/
theorem claim_C6_counterexample :
    (save true ⟨2024, 1, 1, 12, 0, 30⟩ ("do".data) ("t".data) ("ls".data)
        ("Linux".data) ⟨[], 1⟩).2.rows.map (fun r => r.timestamp)
      = (save true ⟨2024, 1, 1, 12, 0, 0⟩ ("do".data) ("t".data) ("ls".data)
        ("Linux".data) ⟨[], 1⟩).2.rows.map (fun r => r.timestamp) ∧
    (30 : Nat) ≠ 0 := by decide

/-- C6 amended: every persisted record's timestamp is assigned at insertion
time with minute precision (the strftime format records year through minute
and ignores the seconds component) and is never mutated afterwards: an append
leaves all previously stored rows unchanged, and the only other mutation of
the store is the bulk delete. -/
theorem claim_C6_amended (dbOk : Bool) (now : PyDateTime) (s : Nat)
    (cmd_type task command os_info : List Char) (db : HistoryDB) :
    (save dbOk now cmd_type task command os_info db).2.rows.take db.rows.length
      = db.rows ∧
    ((save dbOk now cmd_type task command os_info db).2.rows.drop db.rows.length).all
      (fun r => r.timestamp == strftimeYmdHM now) = true ∧
    strftimeYmdHM {now with second := s} = strftimeYmdHM now ∧
    (clear_all db).rows = [] := by
  refine ⟨?_, ?_, rfl, rfl⟩
  · cases dbOk
    · simp [save]
    · simp [save, List.take_left]
  · cases dbOk
    · simp [save, List.drop_length]
    · simp [save, List.drop_left]

/-- C9: on every reachable store state (ids strictly increasing in insertion
order) and every limit, `get_all` returns the min(limit, stored) most recent
rows, newest (largest id) first — i.e. the reverse of insertion order,
truncated to the limit. -/
theorem claim_C9 (db : HistoryDB) (limit : Nat)
    (h : List.Pairwise (fun a b => a.id < b.id) db.rows) :
    get_all limit db = ((db.rows.reverse).take limit).map projRow ∧
    (get_all limit db).length = min limit db.rows.length := by
  have he : get_all limit db = ((db.rows.reverse).take limit).map projRow := by
    unfold get_all
    rw [insertionSort_desc_eq_reverse db.rows h]
  refine ⟨he, ?_⟩
  rw [he]
  simp [List.length_map, List.length_take, List.length_reverse]

/-- The store reached by appending records with intents "A", "B", "C" in
that order to an empty store. -/
def dbExample : HistoryDB :=
  (save true ⟨2024, 1, 1, 12, 2, 0⟩ ("do".data) ("C".data) ("cmdC".data) ("Linux".data)
    (save true ⟨2024, 1, 1, 12, 1, 0⟩ ("do".data) ("B".data) ("cmdB".data) ("Linux".data)
      (save true ⟨2024, 1, 1, 12, 0, 0⟩ ("do".data) ("A".data) ("cmdA".data) ("Linux".data)
        ⟨[], 1⟩).2).2).2

/-- C9 applied to the concrete store with intents "A", "B", "C" and
limit 2. -/
theorem claim_C9_witness :
    List.Pairwise (fun a b : HistoryRow => a.id < b.id) dbExample.rows ∧
    (get_all 2 dbExample = ((dbExample.rows.reverse).take 2).map projRow ∧
     (get_all 2 dbExample).length = min 2 dbExample.rows.length) :=
  ⟨by decide, claim_C9 dbExample 2 (by decide)⟩

/-- C10: record ids are strictly increasing and never reused for the whole
life of the database: along any sequence of save and clear operations the
assigned ids are pairwise increasing, and in particular every id assigned
after a clear exceeds every id assigned before it. -/
theorem claim_C10 (ops ops1 ops2 : List DBOp) (db : HistoryDB) :
    List.Pairwise (fun i j => i < j) (runAssigned ops db) ∧
    ((runAssigned ops2 (runOps (ops1 ++ [DBOp.clearOp]) db)).all
      (fun j => (runAssigned ops1 db).all (fun i => decide (i < j)))) = true := by
  refine ⟨runAssigned_pairwise ops db, ?_⟩
  rw [List.all_eq_true]
  intro j hj
  rw [List.all_eq_true]
  intro i hi
  rw [decide_eq_true_eq]
  have h2 := runAssigned_ge ops2 (runOps (ops1 ++ [DBOp.clearOp]) db) j hj
  rw [runOps_append] at h2
  have h1 : i < (runOps ops1 db).nextId := runAssigned_lt ops1 db i hi
  exact Nat.lt_of_lt_of_le h1 h2
